import Mathlib

/-!
Verification of the markup-to-AST conversion engine of the eiken-vocab
repository (`output_html_to_ast_json.ts`).  The TypeScript source is embedded
shallowly: the generic parsed markup tree becomes the inductive `HNode`,
JavaScript strings become Lean `String`s (sequences of Unicode scalar values),
and every parsing function is translated definition-by-definition.  Regular
expressions used by the source are hand-compiled to equivalent deterministic
character-list scanners.
-/

set_option maxRecDepth 4000

namespace EV

/-- Characters matched by JavaScript's `\s` class (also the set removed by
`String.prototype.trim`). -/
def isJsWs (c : Char) : Bool :=
  c == ' ' || c == '\t' || c == '\n' || c == '\r' ||
  c.toNat == 0x0b || c.toNat == 0x0c ||
  c.toNat == 0xa0 || c.toNat == 0x1680 ||
  (0x2000 ≤ c.toNat && c.toNat ≤ 0x200a) ||
  c.toNat == 0x2028 || c.toNat == 0x2029 || c.toNat == 0x202f ||
  c.toNat == 0x205f || c.toNat == 0x3000 || c.toNat == 0xfeff

/-- JavaScript `String.prototype.trim`. -/
def jsTrim (s : String) : String :=
  String.mk (((s.data.dropWhile isJsWs).reverse.dropWhile isJsWs).reverse)

/-- One pass of `replace(/\s+/g, ' ')`: each maximal whitespace run becomes a
single space. -/
def collapseWsAux : List Char → List Char
  | [] => []
  | [c] => [if isJsWs c then ' ' else c]
  | c1 :: c2 :: rest =>
    if isJsWs c1 then
      if isJsWs c2 then collapseWsAux (c2 :: rest)
      else ' ' :: collapseWsAux (c2 :: rest)
    else c1 :: collapseWsAux (c2 :: rest)

/-- `normalizeWs` from the source: `text.replace(/\s+/g, ' ').trim()`. -/
def normalizeWs (s : String) : String :=
  jsTrim (String.mk (collapseWsAux s.data))

/-- Per-character lower-casing; models `String.prototype.toLowerCase` on the
ASCII range, which is the only range the source compares lowercased values
over (tag names, attribute keywords). -/
def asciiLower (s : String) : String :=
  String.mk (s.data.map Char.toLower)

/-- A code point in the Hiragana, Katakana, or CJK Unified Ideographs ranges:
the character class of `RE_JA` (`/[぀-ヿ㐀-䶿一-鿿]/`). -/
def isJapaneseChar (c : Char) : Bool :=
  (0x3040 ≤ c.toNat && c.toNat ≤ 0x30ff) ||
  (0x3400 ≤ c.toNat && c.toNat ≤ 0x4dbf) ||
  (0x4e00 ≤ c.toNat && c.toNat ≤ 0x9fff)

/-- `isJapanese` from the source: `RE_JA.test(text)`. -/
def isJapanese (s : String) : Bool := s.data.any isJapaneseChar

/-- The generic markup tree handed to the converter: text leaves and elements
with a tag name, an attribute list and ordered children (the shape produced by
`node-html-parser`). -/
inductive HNode where
  | text (s : String)
  | elem (tag : String) (attrs : List (String × String)) (children : List HNode)

/-- `getAttribute`: first attribute with the given name, if any. -/
def getAttr (n : HNode) (key : String) : Option String :=
  match n with
  | .text _ => none
  | .elem _ attrs _ => (attrs.find? (fun p => p.1 == key)).map (fun p => p.2)

/-- `tagName.toLowerCase()` (text nodes have no tag). -/
def tagLower : HNode → String
  | .text _ => ""
  | .elem t _ _ => asciiLower t

/-- `isElement` from the source (`nodeType === 1`). -/
def isElemNode : HNode → Bool
  | .text _ => false
  | .elem _ _ _ => true

mutual

/-- `element.text`: concatenated text of all descendant text leaves. -/
def textOf : HNode → String
  | .text s => s
  | .elem _ _ cs => textOfList cs

def textOfList : List HNode → String
  | [] => ""
  | c :: rest => textOf c ++ textOfList rest

end

mutual

/-- All descendant elements of a node in document (pre-)order, excluding the
node itself: the search space of `querySelectorAll`. -/
def descElems : HNode → List HNode
  | .text _ => []
  | .elem _ _ cs => descElemsList cs

def descElemsList : List HNode → List HNode
  | [] => []
  | c :: rest =>
    match c with
    | .text _ => descElemsList rest
    | .elem t a k => HNode.elem t a k :: (descElems (HNode.elem t a k) ++ descElemsList rest)

end

/-- `querySelectorAll(tag)`: descendant elements with the given (lowercase)
tag, in document order. -/
def querySelectorAll (n : HNode) (tag : String) : List HNode :=
  (descElems n).filter (fun c => tagLower c == tag)

/-- `querySelector(tag)`: first match in document order. -/
def querySelector (n : HNode) (tag : String) : Option HNode :=
  (querySelectorAll n tag).head?

/-- `childNodes` of an element. -/
def directChildren : HNode → List HNode
  | .text _ => []
  | .elem _ _ cs => cs

/-- `querySelectorAll(':scope > tag')`: direct element children with the tag. -/
def directElemsOfTag (n : HNode) (tag : String) : List HNode :=
  (directChildren n).filter (fun c => tagLower c == tag)

/-- The `Chunk` tagged union of the AST. -/
inductive Chunk where
  | japaneseChunk (text : String)
  | englishChunk (text : String)
  | blankChunk (id : Option String)
deriving DecidableEq, Repr

/-- The `Text` AST node: an ordered sequence of chunks. -/
structure Text where
  chunks : List Chunk
deriving DecidableEq, Repr

/-- The buffer flush of `chunksFromNodes`: normalize the accumulated raw text
and emit at most one classified chunk. -/
def flushChunk (buffer : String) : List Chunk :=
  if buffer == "" then []
  else
    let normalized := normalizeWs buffer
    if normalized == "" then []
    else [if isJapanese normalized then Chunk.japaneseChunk normalized
          else Chunk.englishChunk normalized]

/-- The id attached to a `BlankChunk`:
`node.getAttribute('index') ?? node.getAttribute('id') ?? undefined`, with
JavaScript truthiness (`id ? {id} : {}`) dropping an empty-string id. -/
def blankIdOf (n : HNode) : Option String :=
  match (getAttr n "index").orElse (fun _ => getAttr n "id") with
  | some s => if s == "" then none else some s
  | none => none

/-- The final filter of `chunksFromNodes`:
`c.type === 'BlankChunk' || c.text`. -/
def keepChunk : Chunk → Bool
  | .blankChunk _ => true
  | .japaneseChunk t => t != ""
  | .englishChunk t => t != ""

/-- The recursive walk of `chunksFromNodes`, carrying the raw-text buffer. -/
def chunksGo : String → List HNode → List Chunk
  | buffer, [] => flushChunk buffer
  | buffer, n :: rest =>
    match n with
    | .text s => chunksGo (buffer ++ s) rest
    | .elem t a cs =>
      if asciiLower t == "blank" then
        flushChunk buffer ++ Chunk.blankChunk (blankIdOf (.elem t a cs)) :: chunksGo "" rest
      else if asciiLower t == "br" then
        chunksGo (buffer ++ " ") rest
      else
        let inner := (chunksGo "" cs).filter keepChunk
        if inner.isEmpty then chunksGo buffer rest
        else flushChunk buffer ++ (inner ++ chunksGo "" rest)

/-- `chunksFromNodes` from the source. -/
def chunksFromNodes (nodes : List HNode) : List Chunk :=
  (chunksGo "" nodes).filter keepChunk

/-- `textFromNodes` from the source. -/
def textFromNodes (nodes : List HNode) : Text :=
  { chunks := chunksFromNodes nodes }

/-- `EnglishPhraseChoice` AST node. -/
structure EnglishPhraseChoice where
  choice : Text
deriving DecidableEq, Repr

/-- `choiceList` from the source. -/
def choiceList (choicesNode : Option HNode) : List EnglishPhraseChoice :=
  match choicesNode with
  | none => []
  | some node =>
    (querySelectorAll node "choice").map
      (fun c => { choice := textFromNodes (directChildren c) })

/-- The marked-answer test of `answerIndices`: attribute value, lower-cased and
trimmed, is one of `""`, `"true"`, `"1"`, `"yes"`. -/
def isMarkedValue (v : String) : Bool :=
  let vv := jsTrim (asciiLower v)
  vv == "" || vv == "true" || vv == "1" || vv == "yes"

/-- The indexed loop of `answerIndices`. -/
def answerIndicesGo : Nat → List HNode → List Nat
  | _, [] => []
  | i, c :: rest =>
    match getAttr c "answer" with
    | none => answerIndicesGo (i + 1) rest
    | some v =>
      if isMarkedValue v then i :: answerIndicesGo (i + 1) rest
      else answerIndicesGo (i + 1) rest

/-- `answerIndices` from the source. -/
def answerIndices (choicesNode : Option HNode) : List Nat :=
  match choicesNode with
  | none => []
  | some node => answerIndicesGo 0 (querySelectorAll node "choice")

/-- `answerIndex` from the source: first marked index or `-1`. -/
def answerIndex (choicesNode : Option HNode) : Int :=
  match (answerIndices choicesNode).head? with
  | some i => (i : Int)
  | none => -1

/-- `CIRCLED_MAP`: the circled-number glyphs ①–⑳ (U+2460–U+2473) and their
numeric values. -/
def circledVal (c : Char) : Option Nat :=
  if 0x2460 ≤ c.toNat && c.toNat ≤ 0x2473 then some (c.toNat - 0x245f) else none

/-- Character class of the global circled-glyph regexes (①–⑳). -/
def isCircled (c : Char) : Bool := (circledVal c).isSome

/-- Character class `[①②③④⑤]` of the detection gate. -/
def isCircled15 (c : Char) : Bool := 0x2460 ≤ c.toNat && c.toNat ≤ 0x2464

/-- Numeric value of an ASCII digit run. -/
def digitsToNat (cs : List Char) : Nat :=
  cs.foldl (fun n c => n * 10 + (c.toNat - 48)) 0

/-- Scanner state machine for `/(\d+)番目/`: `banmeStartGo runStart pos cs`
returns the start offset of the first (leftmost) match.  `runStart` is the
start index of the digit run currently being read, `pos` the index of the
head of `cs`.  A digit run not followed by `番目` cannot start a match
anywhere inside the run, so the scan resets and moves on. -/
def banmeStartGo : Option Nat → Nat → List Char → Option Nat
  | _, _, [] => none
  | runStart, pos, c :: rest =>
    if c.isDigit then
      banmeStartGo (some (runStart.getD pos)) (pos + 1) rest
    else if c == '番' then
      match runStart, rest with
      | some st, '目' :: _ => some st
      | _, _ => banmeStartGo none (pos + 1) rest
    else banmeStartGo none (pos + 1) rest

/-- Offset of the first match of `/(\d+)番目/`, if any. -/
def banmeMatchStart (cs : List Char) : Option Nat :=
  banmeStartGo none 0 cs

/-- `cleaned.split(/(\d+)番目/)[0]`: the text before the first match (the whole
text when there is none). -/
def splitBeforeBanme (cs : List Char) : List Char :=
  match banmeMatchStart cs with
  | none => cs
  | some p => cs.take p

/-- Scanner state machine for `/(\d+)番目/g`: `run` is the digit run read so
far.  Emits the captured number of every match in scan order; `matchAll`
resumes after each full match. -/
def banmeGo : List Char → List Char → List Nat
  | _, [] => []
  | _, [_] => []
  | run, c :: c2 :: rest =>
    if c.isDigit then banmeGo (run ++ [c]) (c2 :: rest)
    else if !run.isEmpty && c == '番' && c2 == '目' then
      digitsToNat run :: banmeGo [] rest
    else banmeGo [] (c2 :: rest)

/-- The numbers captured by every match of `/(\d+)番目/g`, in scan order. -/
def banmeNumbers (cs : List Char) : List Nat :=
  banmeGo [] cs

/-- `detectBlankIndices` from the source: every `<N>番目` occurrence,
deduplicated and sorted ascending (`[...new Set(...)].sort((a, b) => a - b)`,
modelled by a stable structural sort; the `isFinite` filter is the identity
on these matches). -/
def detectBlankIndices (text : String) : List Nat :=
  List.insertionSort (fun a b => a ≤ b) ((banmeNumbers text.data).dedup)

/-- A circled-number marker with its word fragment. -/
structure CircledWord where
  n : Nat
  text : String
deriving DecidableEq, Repr

/-- The character class `[()（）]` stripped from fragments. -/
def parensChars : List Char := ['(', ')', '（', '）']

/-- Positions (character indices) and glyphs of every circled-number marker:
`[...bodyText.matchAll(/[①-⑳]/g)]`. -/
def circledHits (cs : List Char) : List (Nat × Char) :=
  (cs.enum).filter (fun p => isCircled p.2)

/-- `parseCircledWordList` from the source: the text between one marker and
the next (or the end of the string) is the marker's fragment; parenthesis
characters are replaced by spaces, the fragment is cut before the first
`<N>番目` occurrence, and the results are sorted (stably) by marker value. -/
def parseCircledWordList (bodyText : String) : List CircledWord :=
  let cs := bodyText.data
  let hits := circledHits cs
  if hits.isEmpty then []
  else
    let out := (List.range hits.length).filterMap (fun i =>
      match hits[i]? with
      | none => none
      | some (start, marker) =>
        let endIdx :=
          match hits[i + 1]? with
          | some p => p.1
          | none => cs.length
        match circledVal marker with
        | none => none
        | some n =>
          let segment := (cs.drop (start + 1)).take (endIdx - (start + 1))
          let cleaned := jsTrim (String.mk (segment.map
            (fun c => if parensChars.contains c then ' ' else c)))
          let trimmed := jsTrim (String.mk (splitBeforeBanme cleaned.data))
          if trimmed == "" then none
          else some { n := n, text := normalizeWs trimmed })
    List.insertionSort (fun a b => a.n ≤ b.n) out

/-- The dash-family class `[─\-ー–—]` of the pair-choice pattern. -/
def dashChars : List Char := ['─', '-', 'ー', '–', '—']

/-- One token of the pair pattern: a single circled glyph, or a maximal
nonempty ASCII digit run (`[①-⑳]|[0-9]+`); returns its value and the rest. -/
def pairToken : List Char → Option (Nat × List Char)
  | [] => none
  | c :: rest =>
    match circledVal c with
    | some n => some (n, rest)
    | none =>
      if c.isDigit then
        let run := rest.takeWhile Char.isDigit
        some (digitsToNat (c :: run), rest.drop run.length)
      else none

/-- `parsePairChoiceText` from the source: after whitespace normalization the
text must be exactly token, optional spaces, dash-family character, optional
spaces, token. -/
def parsePairChoiceText (text : String) : Option (List Nat) :=
  let t := normalizeWs text
  match pairToken t.data with
  | none => none
  | some (a, r1) =>
    match r1.dropWhile isJsWs with
    | [] => none
    | d :: r3 =>
      if dashChars.contains d then
        match pairToken (r3.dropWhile isJsWs) with
        | some (b, r5) => if r5.isEmpty then some [a, b] else none
        | none => none
      else none

/-- `isWordOrderQuestion` from the source: nonempty normalized body text that
contains a glyph in ①–⑤, and a first choice whose text parses as a pair. -/
def isWordOrderQuestion (q : HNode) : Bool :=
  let bodyText := normalizeWs (((querySelector q "body").map textOf).getD "")
  if bodyText == "" then false
  else if !(bodyText.data.any isCircled15) then false
  else
    let first :=
      (((querySelector q "choices").bind (fun cn => querySelector cn "choice")).map textOf).getD ""
    (parsePairChoiceText first).isSome

/-- Models `Number(raw)` on the integral decimal strings used by `index`
attributes (optional sign, digits, surrounding whitespace); other finite
numeric forms do not occur in the claims' scope and are mapped to `none`
like `NaN`. -/
def jsNumberInt (raw : String) : Option Int :=
  let t := jsTrim raw
  if t == "" then some 0
  else
    match t.data with
    | '-' :: ds =>
      if !ds.isEmpty && ds.all Char.isDigit then some (-(digitsToNat ds : Int)) else none
    | '+' :: ds =>
      if !ds.isEmpty && ds.all Char.isDigit then some ((digitsToNat ds : Int)) else none
    | ds => if ds.all Char.isDigit then some ((digitsToNat ds : Int)) else none

/-- `parseQuestionIndex` from the source. -/
def parseQuestionIndex (node : Option HNode) : Option Int :=
  match node.bind (fun n => getAttr n "index") with
  | none => none
  | some raw => if raw == "" then none else jsNumberInt raw

/-- AST: `ShortSentenceCloze`. -/
structure ShortSentenceCloze where
  index : Option Int
  sentence : Text
  choices : List EnglishPhraseChoice
  answerIndex : Int
deriving DecidableEq, Repr

/-- AST: `SelectTrueSentence`. -/
structure SelectTrueSentence where
  index : Option Int
  question : String
  choices : List EnglishPhraseChoice
  answerIndex : Int
deriving DecidableEq, Repr

/-- AST: `SentenceCompletion`. -/
structure SentenceCompletion where
  index : Option Int
  sentence : Text
  choices : List EnglishPhraseChoice
  answerIndex : Int
deriving DecidableEq, Repr

/-- AST: `ContentCloze` (present in the union, never produced by the parser). -/
structure ContentCloze where
  index : Option Int
  content : Text
  choices : List EnglishPhraseChoice
  answerIndex : Int
deriving DecidableEq, Repr

/-- AST: `ConversationLine`. -/
structure ConversationLine where
  speaker : String
  text : List Chunk
deriving DecidableEq, Repr

/-- AST: `Conversation`. -/
structure Conversation where
  lines : List ConversationLine
deriving DecidableEq, Repr

/-- AST: `SelectResponseByConversation`. -/
structure SelectResponseByConversation where
  index : Option Int
  conversation : Conversation
  choices : List EnglishPhraseChoice
  answerIndex : Int
deriving DecidableEq, Repr

/-- AST: `MultipleNumberChoice`. -/
structure MultipleNumberChoice where
  choices : List Nat
deriving DecidableEq, Repr

/-- AST: `JapaneseTranslateWordOrderCombination` (its `words` are
`EnglishChunk` values). -/
structure JapaneseTranslateWordOrderCombination where
  index : Option Int
  question : String
  words : List Chunk
  choices : List MultipleNumberChoice
  answerIndex : Int
deriving DecidableEq, Repr

/-- AST: `JapaneseTranslateWordOrderCombinationSection`. -/
structure JapaneseTranslateWordOrderCombinationSection where
  blankIndices : List Nat
  questions : List JapaneseTranslateWordOrderCombination
deriving DecidableEq, Repr

/-- AST: the `ContentUnderstanding` union. -/
inductive ContentUnderstanding where
  | selectTrueSentence (q : SelectTrueSentence)
  | sentenceCompletion (q : SentenceCompletion)
  | contentCloze (q : ContentCloze)
deriving DecidableEq, Repr

/-- AST: the presentation kinds of `Content`. -/
inductive ContentKind where
  | emailContent
  | posterContent
  | sentenceContent
  | passageContent
deriving DecidableEq, Repr

/-- AST: `Content`. -/
structure Content where
  kind : ContentKind
  content : Text
deriving DecidableEq, Repr

/-- `parseShortSentenceCloze` from the source. -/
def parseShortSentenceCloze (question : HNode) : ShortSentenceCloze :=
  let body := querySelector question "body"
  let choices := querySelector question "choices"
  { index := parseQuestionIndex (some question)
    sentence := textFromNodes ((body.map directChildren).getD [])
    choices := choiceList choices
    answerIndex := answerIndex choices }

/-- `parseSelectTrueSentence` from the source. -/
def parseSelectTrueSentence (question : HNode) : SelectTrueSentence :=
  let body := querySelector question "body"
  let choices := querySelector question "choices"
  { index := parseQuestionIndex (some question)
    question := normalizeWs ((body.map textOf).getD "")
    choices := choiceList choices
    answerIndex := answerIndex choices }

/-- `hasBlank` from the source. -/
def hasBlank (body : Option HNode) : Bool :=
  match body with
  | none => false
  | some b => (querySelector b "blank").isSome

/-- `parseSentenceCompletion` from the source. -/
def parseSentenceCompletion (question : HNode) : SentenceCompletion :=
  let body := querySelector question "body"
  let choices := querySelector question "choices"
  { index := parseQuestionIndex (some question)
    sentence := textFromNodes ((body.map directChildren).getD [])
    choices := choiceList choices
    answerIndex := answerIndex choices }

/-- `parseContentUnderstanding` from the source. -/
def parseContentUnderstanding (question : HNode) : ContentUnderstanding :=
  let qType := asciiLower ((getAttr question "type").getD "")
  let body := querySelector question "body"
  if qType == "completion" || hasBlank body then
    .sentenceCompletion (parseSentenceCompletion question)
  else .selectTrueSentence (parseSelectTrueSentence question)

/-- `parseConversation` from the source. -/
def parseConversation (content : HNode) : Conversation :=
  { lines := (querySelectorAll content "line").map (fun line =>
      { speaker := (getAttr line "speaker").getD ""
        text := chunksFromNodes (directChildren line) }) }

/-- The result union of `parseListeningQuestion`. -/
inductive ListeningQuestion where
  | conv (q : SelectResponseByConversation)
  | trueSentence (q : SelectTrueSentence)
  | cloze (q : ShortSentenceCloze)
deriving DecidableEq, Repr

/-- `parseListeningQuestion` from the source. -/
def parseListeningQuestion (question : HNode) : ListeningQuestion :=
  let qType := asciiLower ((getAttr question "type").getD "")
  let body := querySelector question "body"
  let choices := querySelector question "choices"
  let content := body.bind (fun b => querySelector b "content")
  let nonConv : ListeningQuestion :=
    if qType == "fill" || qType == "completion" then
      .cloze { index := parseQuestionIndex (some question)
               sentence := textFromNodes ((body.map directChildren).getD [])
               choices := choiceList choices
               answerIndex := answerIndex choices }
    else
      .trueSentence { index := parseQuestionIndex (some question)
                      question := normalizeWs ((body.map textOf).getD "")
                      choices := choiceList choices
                      answerIndex := answerIndex choices }
  match content with
  | some c =>
    if asciiLower ((getAttr c "type").getD "") == "conversation" then
      .conv { index := parseQuestionIndex (some question)
              conversation := parseConversation c
              choices := choiceList choices
              answerIndex := answerIndex choices }
    else nonConv
  | none => nonConv

/-- `parseContentNode` from the source (unrecognized types fall back to
`PassageContent`). -/
def parseContentNode (content : HNode) : Content :=
  let t := asciiLower ((getAttr content "type").getD "")
  if t == "email" then
    { kind := .emailContent, content := textFromNodes (directChildren content) }
  else if t == "poster" then
    { kind := .posterContent, content := textFromNodes (directChildren content) }
  else if t == "paragraph" || t == "passage" then
    { kind := .passageContent, content := textFromNodes (directChildren content) }
  else
    { kind := .passageContent, content := textFromNodes (directChildren content) }

/-- `collectDirectChildren` from the source: direct `content`/`question`
element children, in document order. -/
def collectDirectChildren (sectionNode : HNode) : List HNode :=
  (directChildren sectionNode).filter (fun child =>
    isElemNode child && (tagLower child == "content" || tagLower child == "question"))

/-- `parseWordOrderSection` from the source. -/
def parseWordOrderSection (questions : List HNode) (hintText : String) :
    JapaneseTranslateWordOrderCombinationSection :=
  let blankIndices0 := detectBlankIndices hintText
  let blankIndices :=
    if blankIndices0.isEmpty then
      detectBlankIndices (String.intercalate " " (questions.map (fun q => normalizeWs (textOf q))))
    else blankIndices0
  let parsedQuestions := questions.map (fun q =>
    let body := querySelector q "body"
    let bodyText := normalizeWs ((body.map textOf).getD "")
    let words := (parseCircledWordList bodyText).map (fun w => Chunk.englishChunk w.text)
    let choicesNode := querySelector q "choices"
    let choiceEls := (choicesNode.map (fun cn => querySelectorAll cn "choice")).getD []
    let choices :=
      ((choiceEls.filterMap (fun c => parsePairChoiceText (textOf c))).filter
        (fun pair => !pair.isEmpty)).map
        (fun pair => ({ choices := pair } : MultipleNumberChoice))
    { index := parseQuestionIndex (some q)
      question := bodyText
      words := words
      choices := choices
      answerIndex := answerIndex choicesNode
      : JapaneseTranslateWordOrderCombination })
  { blankIndices := blankIndices, questions := parsedQuestions }

/-- JavaScript `Map` lookup on an insertion-ordered association list. -/
def mapGet {α : Type} (m : List (String × α)) (k : String) : Option α :=
  (m.find? (fun p => p.1 == k)).map (fun p => p.2)

/-- JavaScript `Map.has`. -/
def mapHas {α : Type} (m : List (String × α)) (k : String) : Bool :=
  m.any (fun p => p.1 == k)

/-- JavaScript `Map.set`: replace in place, or append a new key. -/
def mapSet {α : Type} (m : List (String × α)) (k : String) (v : α) : List (String × α) :=
  if mapHas m k then m.map (fun p => if p.1 == k then (k, v) else p)
  else m ++ [(k, v)]

/-- `resolveForKey` from the source: trimmed `for` attribute taken verbatim
when it is a known content index, else read as a 1-based ordinal into the
content order, else unresolved. -/
def resolveForKey (contentByIndex : List (String × HNode)) (contentOrder : List String)
    (q : HNode) : Option String :=
  let key := jsTrim ((getAttr q "for").getD "")
  if key == "" then none
  else if mapHas contentByIndex key then some key
  else if key.data.all Char.isDigit then
    let n := digitsToNat key.data
    match contentOrder[n - 1]? with
    | some mapped =>
      if 1 ≤ n && n ≤ contentOrder.length && mapped != "" then some mapped else none
    | none => none
  else none

/-- The current-content pointer update of the document-order scan: a `content`
element with a recognized index becomes the new pointer. -/
def scanContentKey (contentByIndex : List (String × HNode)) (cur : Option String)
    (it : HNode) : Option String :=
  if tagLower it == "content" then
    let idx := jsTrim ((getAttr it "index").getD "")
    if idx != "" && mapHas contentByIndex idx then some idx else cur
  else cur

/-- The document-order scan of `parseReadingSection` that assigns questions to
content buckets (`qsByKey`); items are tagged with their position so that
distinct occurrences of equal nodes stay distinct, as they are for the
JavaScript object identities. -/
def fillBuckets (contentByIndex : List (String × HNode)) (contentOrder : List String) :
    List (Nat × HNode) → Option String → List (String × List (Nat × HNode)) →
    List (String × List (Nat × HNode))
  | [], _, m => m
  | (i, it) :: rest, cur, m =>
    if tagLower it == "content" then
      fillBuckets contentByIndex contentOrder rest (scanContentKey contentByIndex cur it) m
    else if tagLower it == "question" then
      let key :=
        match resolveForKey contentByIndex contentOrder it with
        | some k => some k
        | none => cur
      let m2 :=
        match key with
        | some k =>
          if k != "" && mapHas m k then mapSet m k (((mapGet m k).getD []) ++ [(i, it)])
          else m
        | none => m
      fillBuckets contentByIndex contentOrder rest cur m2
    else fillBuckets contentByIndex contentOrder rest cur m

/-- `for (const k of contentOrder) qsByKey.set(k, [])`. -/
def initBuckets (contentOrder : List String) : List (String × List (Nat × HNode)) :=
  contentOrder.foldl (fun m k => mapSet m k []) []

/-- AST: `MultipleReadContentAndAnswerSectionPart`. -/
structure MultipleReadContentAndAnswerSectionPart where
  content : Content
  questions : List ContentUnderstanding
deriving DecidableEq, Repr

/-- AST: the `ReadingSection` union. -/
inductive ReadingSection where
  | readContentAndAnswerSection (contents : List Content)
      (questions : List ContentUnderstanding)
  | multipleReadContentAndAnswerSection
      (parts : List MultipleReadContentAndAnswerSectionPart)
  | shortSentenceClozeSection (questions : List ShortSentenceCloze)
  | japaneseTranslateWordOrderCombinationSection
      (s : JapaneseTranslateWordOrderCombinationSection)
deriving DecidableEq, Repr

/-- `parseReadingSection` from the source. -/
def parseReadingSection (sectionNode : HNode) : List ReadingSection :=
  let items := collectDirectChildren sectionNode
  let contents := items.filter (fun x => tagLower x == "content")
  let questions := items.filter (fun x => tagLower x == "question")
  if contents.length == 0 then
    if questions.length != 0 && questions.all isWordOrderQuestion then
      [.japaneseTranslateWordOrderCombinationSection
        (parseWordOrderSection questions (String.intercalate " " (questions.map textOf)))]
    else
      [.shortSentenceClozeSection (questions.map parseShortSentenceCloze)]
  else
    let cbiOrder := contents.foldl (fun acc c =>
        let idx := jsTrim ((getAttr c "index").getD "")
        if idx == "" then acc
        else (mapSet acc.1 idx c, acc.2 ++ [idx]))
      (([], []) : List (String × HNode) × List String)
    let contentByIndex := cbiOrder.1
    let contentOrder := cbiOrder.2
    let itemsI := items.enum
    let filled :=
      fillBuckets contentByIndex contentOrder itemsI contentOrder.head? (initBuckets contentOrder)
    let hintedText := String.intercalate " " (contents.map (fun c => normalizeWs (textOf c)))
    let woStep := contentOrder.foldl
      (fun (st : List (String × List (Nat × HNode)) × List ReadingSection) k =>
        let qs := (mapGet st.1 k).getD []
        if qs.length == 0 then st
        else if !(qs.all (fun p => isWordOrderQuestion p.2)) then st
        else
          let hint := normalizeWs (((mapGet contentByIndex k).map textOf).getD hintedText)
          (mapSet st.1 k [],
           st.2 ++ [.japaneseTranslateWordOrderCombinationSection
             (parseWordOrderSection (qs.map (fun p => p.2)) hint)]))
      (filled, [])
    let afterWO := woStep.1
    let woSections := woStep.2
    let contentGroups := (contentOrder.map (fun k =>
        ((mapGet contentByIndex k), (mapGet afterWO k).getD []))).filterMap
        (fun g => match g.1 with
          | some c => if g.2.length != 0 then some (c, g.2) else none
          | none => none)
    let mainSections : List ReadingSection :=
      if contentGroups.length ≥ 2 then
        [.multipleReadContentAndAnswerSection (contentGroups.map (fun g =>
          { content := parseContentNode g.1
            questions := (g.2.map (fun p => p.2)).map parseContentUnderstanding }))]
      else
        match contentGroups with
        | [g] => [.readContentAndAnswerSection [parseContentNode g.1]
                    ((g.2.map (fun p => p.2)).map parseContentUnderstanding)]
        | _ => []
    let groupedIds := contentGroups.flatMap (fun g => g.2.map (fun p => p.1))
    let questionsI := itemsI.filter (fun p => tagLower p.2 == "question")
    let orphan := questionsI.filter (fun p =>
        !(groupedIds.contains p.1) && (resolveForKey contentByIndex contentOrder p.2).isNone)
    let orphanSections : List ReadingSection :=
      if orphan.length != 0 then
        if orphan.all (fun p => isWordOrderQuestion p.2) then
          [.japaneseTranslateWordOrderCombinationSection
            (parseWordOrderSection (orphan.map (fun p => p.2)) hintedText)]
        else
          [.shortSentenceClozeSection ((orphan.map (fun p => p.2)).map parseShortSentenceCloze)]
      else []
    woSections ++ mainSections ++ orphanSections

/-- `parseReadingSections` from the source. -/
def parseReadingSections (root : HNode) : List ReadingSection :=
  match querySelector root "reading_sections" with
  | none => []
  | some reading => (querySelectorAll reading "section").flatMap parseReadingSection

/-- JavaScript line terminators (the characters `.` never matches). -/
def isLineTerm (c : Char) : Bool :=
  c == '\n' || c == '\r' || c.toNat == 0x2028 || c.toNat == 0x2029

/-- `splitSituationScript` from the source: the anchored match of
`/^\(([^)]+)\)\s*([^.]*)\.\s*(.*)$/` compiled to a deterministic scan (the
greedy classes leave the engine no backtracking choices). -/
def splitSituationScript (text : String) : String × String :=
  let noMatch := ("", text)
  match text.data with
  | '(' :: rest =>
    let g1 := rest.takeWhile (fun c => c != ')')
    if g1.isEmpty then noMatch
    else
      match rest.drop g1.length with
      | ')' :: r2 =>
        let r3 := r2.dropWhile isJsWs
        let g2 := r3.takeWhile (fun c => c != '.')
        match r3.drop g2.length with
        | '.' :: r5 =>
          let g3 := r5.dropWhile isJsWs
          if g3.any isLineTerm then noMatch
          else (jsTrim ("(" ++ String.mk g1 ++ ")" ++ String.mk g2),
                jsTrim (String.mk g3))
        | _ => noMatch
      | _ => noMatch
  | _ => noMatch

/-- The loop body of `textPrefixBeforeQuestions`: concatenate raw text and
element text until the first `question` element child. -/
def textPrefixGo : List HNode → String
  | [] => ""
  | child :: rest =>
    match child with
    | .text s => s ++ textPrefixGo rest
    | .elem t a cs =>
      if asciiLower t == "question" then ""
      else textOf (.elem t a cs) ++ textPrefixGo rest

/-- `textPrefixBeforeQuestions` from the source. -/
def textPrefixBeforeQuestions (node : HNode) : String :=
  normalizeWs (textPrefixGo (directChildren node))

/-- AST: `ReallifePart`. -/
structure ReallifePart where
  index : Option Int
  question : String
  choices : List EnglishPhraseChoice
  answerIndices : List Nat
deriving DecidableEq, Repr

/-- AST: `Reallife`. -/
structure Reallife where
  index : Option Int
  situation : String
  script : Text
  parts : List ReallifePart
deriving DecidableEq, Repr

/-- AST: `SelectSentenceByEnglishSentence`. -/
structure SelectSentenceByEnglishSentence where
  index : Option Int
  question : String
  choices : List EnglishPhraseChoice
  answerIndex : Int
deriving DecidableEq, Repr

/-- AST: the `ListeningSection` union. -/
inductive ListeningSection where
  | reallifeSection (questions : List Reallife)
  | selectSentenceByEnglishSentenceSection
      (questions : List SelectSentenceByEnglishSentence)
  | selectResponseByConversationSection
      (questions : List SelectResponseByConversation)
deriving DecidableEq, Repr

/-- `parseListeningSection` from the source. -/
def parseListeningSection (sectionNode : HNode) : ListeningSection :=
  let directContents := directElemsOfTag sectionNode "content"
  let hasScript :=
    directContents.any (fun c => asciiLower ((getAttr c "type").getD "") == "script")
  if hasScript then
    let scripts :=
      directContents.filter (fun c => asciiLower ((getAttr c "type").getD "") == "script")
    let siblingQuestions := directElemsOfTag sectionNode "question"
    let qsByFor := siblingQuestions.foldl (fun m q =>
        let k := jsTrim ((getAttr q "for").getD "")
        if k == "" then m
        else mapSet m k (((mapGet m k).getD []) ++ [q]))
      ([] : List (String × List HNode))
    let reallifes := scripts.map (fun script =>
      let idx := jsTrim ((getAttr script "index").getD "")
      let raw := textPrefixBeforeQuestions script
      let ss := splitSituationScript raw
      let nestedQuestions := directElemsOfTag script "question"
      let externalQuestions := if idx != "" then (mapGet qsByFor idx).getD [] else []
      let allQuestions := nestedQuestions ++ externalQuestions
      let parts := allQuestions.map (fun q =>
        let body := querySelector q "body"
        let choices := querySelector q "choices"
        { index := parseQuestionIndex (some q)
          question := normalizeWs ((body.map textOf).getD "")
          choices := choiceList choices
          answerIndices := answerIndices choices
          : ReallifePart })
      { index := none
        situation := ss.1
        script := { chunks := if ss.2 != "" then [Chunk.englishChunk ss.2] else [] }
        parts := parts
        : Reallife })
    .reallifeSection reallifes
  else
    let questions := (directElemsOfTag sectionNode "question").map parseListeningQuestion
    let convos := questions.filterMap (fun q =>
      match q with
      | .conv c => some c
      | _ => none)
    if convos.length != 0 then .selectResponseByConversationSection convos
    else
      let normalized := questions.map (fun q =>
        match q with
        | .trueSentence t =>
          { index := t.index, question := t.question, choices := t.choices,
            answerIndex := t.answerIndex : SelectSentenceByEnglishSentence }
        | .cloze c =>
          let sentenceText := normalizeWs (String.join (c.sentence.chunks.map (fun ch =>
            match ch with
            | .blankChunk id => "[" ++ id.getD "" ++ "]"
            | .japaneseChunk t => t
            | .englishChunk t => t)))
          { index := c.index, question := sentenceText, choices := c.choices,
            answerIndex := c.answerIndex }
        | .conv cv =>
          { index := none, question := "", choices := cv.choices,
            answerIndex := cv.answerIndex })
      .selectSentenceByEnglishSentenceSection normalized

/-- `parseListeningSections` from the source. -/
def parseListeningSections (root : HNode) : List ListeningSection :=
  match querySelector root "listening_sections" with
  | none => []
  | some listening => (querySelectorAll listening "section").map parseListeningSection

/-- AST: the assembled `Test` document. -/
structure Test where
  readingSections : List ReadingSection
  listeningSections : List ListeningSection
deriving Repr

/-- The write-safety decision of `main` (document assembly): a pre-existing
file at the output path without the `--overwrite` flag raises the refusal
error, whose message names that path; otherwise the document is written. -/
def writeDecision (fileExists : Bool) (overwrite : Bool) (outPath : String) :
    Except String Unit :=
  if fileExists && !overwrite then
    Except.error ("Refusing to overwrite: " ++ outPath ++ " (pass --overwrite)")
  else Except.ok ()

/-- The bucket of a content key in the grouping map (`qsByKey.get(k) ?? []`). -/
def bucketOf (m : List (String × List (Nat × HNode))) (k : String) : List (Nat × HNode) :=
  (mapGet m k).getD []

/-- The current-content pointer after scanning a list of items. -/
def curAfter (cbi : List (String × HNode)) (cur : Option String)
    (l : List (Nat × HNode)) : Option String :=
  l.foldl (fun c p => scanContentKey cbi c p.2) cur

/-- The marked-answer test on an indexed choice element: a present `answer`
attribute whose value passes `isMarkedValue`; an absent attribute is never
marked. -/
def markedAt (p : Nat × HNode) : Bool :=
  match getAttr p.2 "answer" with
  | some v => isMarkedValue v
  | none => false

/-- Discriminator for the word-order reading-section variant. -/
def isWordOrderSectionValue : ReadingSection → Bool
  | .japaneseTranslateWordOrderCombinationSection _ => true
  | _ => false

/-- Sample choices node of the spec example: `answer` attributes `""`,
absent, `"true"` at positions 0, 1, 2. -/
def c2Choices : HNode :=
  HNode.elem "choices" []
    [HNode.elem "choice" [("answer", "")] [HNode.text "a"],
     HNode.elem "choice" [] [HNode.text "b"],
     HNode.elem "choice" [("answer", "true")] [HNode.text "c"]]

/-- Sample word-order question: circled glyphs in the body, pair-shaped
choices, marked second choice. -/
def woSampleQuestion : HNode :=
  HNode.elem "question" [("index", "1")]
    [HNode.elem "body" [] [HNode.text "①to the ②store ③tomorrow 2番目"],
     HNode.elem "choices" []
       [HNode.elem "choice" [] [HNode.text "③-①"],
        HNode.elem "choice" [("answer", "true")] [HNode.text "②-③"]]]

/-- Sample section with one word-order question and no content children. -/
def c4Sample : HNode := HNode.elem "section" [] [woSampleQuestion]

/-- Sample question for the answer-index/choices mismatch: the marked choice
(position 1) is preceded by a choice whose text is not a reordering pair. -/
def c9Question : HNode :=
  HNode.elem "question" []
    [HNode.elem "body" [] [HNode.text "①a ②b"],
     HNode.elem "choices" []
       [HNode.elem "choice" [] [HNode.text "plain"],
        HNode.elem "choice" [("answer", "true")] [HNode.text "③-①"]]]

/-- Sample listening cloze question with a blank carrying id `3`. -/
def c5ClozeQuestion : HNode :=
  HNode.elem "question" [("type", "fill")]
    [HNode.elem "body" []
       [HNode.text "I like ", HNode.elem "blank" [("id", "3")] [], HNode.text " apples"],
     HNode.elem "choices" [] [HNode.elem "choice" [("answer", "true")] [HNode.text "red"]]]

/-- Sample listening section with no script-type content child. -/
def c5Sample : HNode := HNode.elem "section" [] [c5ClozeQuestion]

/-- Claim-style content-key priority for C1, phrased after the specification's
words: (a) a trimmed `for` attribute that is a known content index verbatim;
else (b) a `for` value that is a positive integer `n` with
`1 <= n <= number of indexed contents`, taken as a 1-based ordinal into the
content order; else (c) the supplied current-content pointer. -/
def claimKey (cbi : List (String × HNode)) (order : List String) (cur1 : Option String)
    (q : HNode) : Option String :=
  let fo := jsTrim ((getAttr q "for").getD "")
  if fo ≠ "" ∧ mapHas cbi fo = true then some fo
  else if fo ≠ "" ∧ fo.data.all Char.isDigit = true ∧
          1 ≤ digitsToNat fo.data ∧ digitsToNat fo.data ≤ order.length then
    order[digitsToNat fo.data - 1]?
  else cur1

/-- Sample indexed content elements and scan items for the grouping claims. -/
def c1ContentOne : HNode :=
  HNode.elem "content" [("index", "1"), ("type", "passage")] [HNode.text "First"]

/-- Second sample indexed content element. -/
def c1ContentTwo : HNode :=
  HNode.elem "content" [("index", "2"), ("type", "email")] [HNode.text "Second"]

/-- Sample content-by-index map. -/
def c1Cbi : List (String × HNode) := [("1", c1ContentOne), ("2", c1ContentTwo)]

/-- Sample question referencing content index 2 through its `for` attribute. -/
def c1Question : HNode := HNode.elem "question" [("for", "2")] []

/-- Sample scan prefix: one content item at position 0. -/
def c1Pre : List (Nat × HNode) := [(0, c1ContentOne)]

/-- Sample scan suffix: one unrelated question at position 3. -/
def c1Suf : List (Nat × HNode) := [(3, HNode.elem "question" [] [])]

/-- Sample question with no `for` attribute. -/
def c10Question : HNode := HNode.elem "question" [] []

/-- Sample scan prefix with no content elements. -/
def c10Pre : List (Nat × HNode) := [(0, HNode.elem "question" [("index", "5")] [])]

theorem answerIndicesGo_eq (l : List HNode) (i : Nat) :
    answerIndicesGo i l = ((List.enumFrom i l).filter markedAt).map (fun p => p.1) := by
  induction l generalizing i with
  | nil => simp [answerIndicesGo]
  | cons c rest ih =>
    simp only [answerIndicesGo, List.enumFrom]
    cases h : getAttr c "answer" with
    | none => simp [markedAt, h, ih]
    | some v =>
      by_cases hm : isMarkedValue v = true <;>
        simp [markedAt, h, hm, ih, List.filter_cons]

/-- C2: for every choices node, `answerIndices` returns exactly the positions
(in ascending document order) of the choice elements whose `answer` attribute
value, trimmed and lower-cased, is one of `""`, `"true"`, `"1"`, `"yes"` (an
absent attribute is never marked), and `answerIndex` returns the first such
position or `-1`; on answers `["", absent, "true"]` at positions 0, 1, 2 they
return `[0, 2]` and `0`. -/
theorem c2_answer_extraction :
    (∀ node : HNode,
        answerIndices (some node) =
          (((querySelectorAll node "choice").enum).filter markedAt).map (fun p => p.1)) ∧
    (∀ node : HNode,
        answerIndex (some node) =
          (match ((((querySelectorAll node "choice").enum).filter markedAt).map
              (fun p => p.1)).head? with
           | some i => (i : Int)
           | none => -1)) ∧
    answerIndices (some c2Choices) = [0, 2] ∧
    answerIndex (some c2Choices) = 0 := by
  refine ⟨?_, ?_, by decide, by decide⟩
  · intro node
    simpa [answerIndices, List.enum] using answerIndicesGo_eq (querySelectorAll node "choice") 0
  · intro node
    simp only [answerIndex, answerIndices, List.enum]
    rw [answerIndicesGo_eq]

/-- C3: a question passes the word-order detection gate exactly when its
normalized body text contains a circled glyph in ①–⑤ and its first choice's
text matches the two-token pair pattern; `parsePairChoiceText` accepts
`"③-①"`, `"3 - 1"`, `"③ – ①"` and rejects `"plain text"`. -/
theorem c3_word_order_gate :
    (∀ q : HNode,
      isWordOrderQuestion q =
        ((normalizeWs (((querySelector q "body").map textOf).getD "")).data.any isCircled15 &&
         (parsePairChoiceText ((((querySelector q "choices").bind
             (fun cn => querySelector cn "choice")).map textOf).getD "")).isSome)) ∧
    parsePairChoiceText "③-①" = some [3, 1] ∧
    parsePairChoiceText "3 - 1" = some [3, 1] ∧
    parsePairChoiceText "③ – ①" = some [3, 1] ∧
    parsePairChoiceText "plain text" = none := by
  refine ⟨?_, by decide, by decide, by decide, by decide⟩
  intro q
  simp only [isWordOrderQuestion]
  by_cases h : normalizeWs (((querySelector q "body").map textOf).getD "") = ""
  · simp [h]
  · cases hc : (normalizeWs (((querySelector q "body").map textOf).getD "")).data.any isCircled15 <;>
      simp [h, hc]

/-- C4 counterexample: a reading section with no content children and no
question children has every (that is, vacuously all) questions passing the
word-order gate, yet the grouper emits a `ShortSentenceClozeSection`, not a
`JapaneseTranslateWordOrderCombinationSection`. -/
theorem c4_counterexample :
    parseReadingSection (HNode.elem "section" [] []) =
      [ReadingSection.shortSentenceClozeSection []] ∧
    (([] : List HNode).all isWordOrderQuestion) = true ∧
    ((parseReadingSection (HNode.elem "section" [] [])).map isWordOrderSectionValue) =
      [false] := by
  exact ⟨by decide, by decide, by decide⟩

/-- C4 (amended): for a reading-section node with no direct content children,
the grouper emits one `JapaneseTranslateWordOrderCombinationSection` when the
question list is nonempty and every question passes the gate, and otherwise
(including an empty question list) one `ShortSentenceClozeSection` covering
all the questions. -/
theorem c4_no_content_dispatch_amended (sectionNode : HNode)
    (h : (collectDirectChildren sectionNode).filter (fun x => tagLower x == "content") = []) :
    parseReadingSection sectionNode =
      (let questions :=
        (collectDirectChildren sectionNode).filter (fun x => tagLower x == "question")
       if (questions.length != 0 && questions.all isWordOrderQuestion) = true then
         [ReadingSection.japaneseTranslateWordOrderCombinationSection
           (parseWordOrderSection questions
             (String.intercalate " " (questions.map textOf)))]
       else [ReadingSection.shortSentenceClozeSection (questions.map parseShortSentenceCloze)]) := by
  simp only [parseReadingSection, h]
  rfl

/-- Witness for C4 (amended): a section holding one word-order question and
no content children satisfies the hypothesis and is dispatched accordingly. -/
theorem c4_no_content_dispatch_amended_witness :
    ((collectDirectChildren c4Sample).filter (fun x => tagLower x == "content") = []) ∧
    parseReadingSection c4Sample =
      (let questions :=
        (collectDirectChildren c4Sample).filter (fun x => tagLower x == "question")
       if (questions.length != 0 && questions.all isWordOrderQuestion) = true then
         [ReadingSection.japaneseTranslateWordOrderCombinationSection
           (parseWordOrderSection questions
             (String.intercalate " " (questions.map textOf)))]
       else [ReadingSection.shortSentenceClozeSection (questions.map parseShortSentenceCloze)]) :=
  ⟨rfl, c4_no_content_dispatch_amended c4Sample rfl⟩

/-- C5: a listening-section node without a script-type content child emits one
`SelectResponseByConversationSection` holding exactly the conversation-based
parsed questions when any exist, and otherwise one
`SelectSentenceByEnglishSentenceSection` over all parsed questions, a cloze
question's sentence flattened to plain text with each blank chunk rendered as
a bracketed placeholder containing its id. -/
theorem c5_listening_no_script_dispatch (sectionNode : HNode)
    (h : ((directElemsOfTag sectionNode "content").any
        (fun c => asciiLower ((getAttr c "type").getD "") == "script")) = false) :
    parseListeningSection sectionNode =
      (let questions := (directElemsOfTag sectionNode "question").map parseListeningQuestion
       let convos := questions.filterMap (fun q =>
         match q with
         | ListeningQuestion.conv c => some c
         | _ => none)
       if convos.length != 0 then
         ListeningSection.selectResponseByConversationSection convos
       else
         ListeningSection.selectSentenceByEnglishSentenceSection (questions.map (fun q =>
           match q with
           | ListeningQuestion.trueSentence t =>
             { index := t.index, question := t.question, choices := t.choices,
               answerIndex := t.answerIndex }
           | ListeningQuestion.cloze c =>
             { index := c.index
               question := normalizeWs (String.join (c.sentence.chunks.map (fun ch =>
                 match ch with
                 | Chunk.blankChunk id => "[" ++ id.getD "" ++ "]"
                 | Chunk.japaneseChunk t => t
                 | Chunk.englishChunk t => t)))
               choices := c.choices, answerIndex := c.answerIndex }
           | ListeningQuestion.conv cv =>
             { index := none, question := "", choices := cv.choices,
               answerIndex := cv.answerIndex }))) := by
  simp only [parseListeningSection, h]
  rfl

/-- Witness for C5: a listening section holding one cloze question with a
blank of id `3` satisfies the hypothesis and is normalized accordingly. -/
theorem c5_listening_no_script_dispatch_witness :
    (((directElemsOfTag c5Sample "content").any
        (fun c => asciiLower ((getAttr c "type").getD "") == "script")) = false) ∧
    parseListeningSection c5Sample =
      (let questions := (directElemsOfTag c5Sample "question").map parseListeningQuestion
       let convos := questions.filterMap (fun q =>
         match q with
         | ListeningQuestion.conv c => some c
         | _ => none)
       if convos.length != 0 then
         ListeningSection.selectResponseByConversationSection convos
       else
         ListeningSection.selectSentenceByEnglishSentenceSection (questions.map (fun q =>
           match q with
           | ListeningQuestion.trueSentence t =>
             { index := t.index, question := t.question, choices := t.choices,
               answerIndex := t.answerIndex }
           | ListeningQuestion.cloze c =>
             { index := c.index
               question := normalizeWs (String.join (c.sentence.chunks.map (fun ch =>
                 match ch with
                 | Chunk.blankChunk id => "[" ++ id.getD "" ++ "]"
                 | Chunk.japaneseChunk t => t
                 | Chunk.englishChunk t => t)))
               choices := c.choices, answerIndex := c.answerIndex }
           | ListeningQuestion.conv cv =>
             { index := none, question := "", choices := cv.choices,
               answerIndex := cv.answerIndex }))) :=
  ⟨rfl, c5_listening_no_script_dispatch c5Sample rfl⟩

/-- C7: the chunk builder never emits a Japanese or English chunk with empty
text, and a blank element becomes a `BlankChunk` carrying an id exactly when
the `index`-then-`id` attribute lookup supplies a nonempty one. -/
theorem c7_chunk_invariants :
    (∀ nodes : List HNode,
      (chunksFromNodes nodes).all (fun c =>
        match c with
        | Chunk.japaneseChunk t => t != ""
        | Chunk.englishChunk t => t != ""
        | Chunk.blankChunk _ => true) = true) ∧
    (∀ (attrs : List (String × String)) (children : List HNode),
      chunksFromNodes [HNode.elem "blank" attrs children] =
        [Chunk.blankChunk (blankIdOf (HNode.elem "blank" attrs children))]) ∧
    (∀ (attrs : List (String × String)) (children : List HNode) (v : String),
      chunksFromNodes [HNode.elem "blank" attrs children] = [Chunk.blankChunk (some v)] ↔
        (((attrs.find? (fun p => p.1 == "index")).map (fun p => p.2)).orElse
            (fun _ => (attrs.find? (fun p => p.1 == "id")).map (fun p => p.2)) = some v ∧
          v ≠ "")) := by
  have hblank : ∀ (attrs : List (String × String)) (children : List HNode),
      chunksFromNodes [HNode.elem "blank" attrs children] =
        [Chunk.blankChunk (blankIdOf (HNode.elem "blank" attrs children))] := by
    intro attrs children
    have hb : (asciiLower "blank" == "blank") = true := by decide
    simp [chunksFromNodes, chunksGo, hb, flushChunk, keepChunk]
  refine ⟨?_, hblank, ?_⟩
  · intro nodes
    apply List.all_eq_true.mpr
    intro c hc
    have hk := List.of_mem_filter hc
    cases c <;> exact hk
  · intro attrs children v
    rw [hblank]
    simp only [List.cons.injEq, and_true, Chunk.blankChunk.injEq, blankIdOf, getAttr]
    cases ho : ((attrs.find? (fun p => p.1 == "index")).map (fun p => p.2)).orElse
        (fun _ => (attrs.find? (fun p => p.1 == "id")).map (fun p => p.2)) with
    | none => simp
    | some s =>
      by_cases hs : s = ""
      · subst hs
        simp
        exact fun h => h.symm
      · show (if (s == "") = true then none else some s) = some v ↔ some s = some v ∧ v ≠ ""
        rw [if_neg (by simpa using hs)]
        simp only [Option.some.injEq]
        constructor
        · intro hv
          exact ⟨hv, fun h0 => hs (hv.trans h0)⟩
        · intro hv
          exact hv.1

theorem mem_jsTrim (s : String) (c : Char) (h : c ∈ (jsTrim s).data) : c ∈ s.data := by
  simp only [jsTrim] at h
  have h1 : c ∈ ((s.data.dropWhile isJsWs).reverse.dropWhile isJsWs).reverse := h
  rw [List.mem_reverse] at h1
  have h2 := (List.dropWhile_sublist isJsWs).subset h1
  rw [List.mem_reverse] at h2
  exact (List.dropWhile_sublist isJsWs).subset h2

theorem mem_collapseWsAux (l : List Char) (c : Char) (h : c ∈ collapseWsAux l) :
    c = ' ' ∨ c ∈ l := by
  induction l with
  | nil => simp [collapseWsAux] at h
  | cons a rest ih =>
    cases rest with
    | nil =>
      simp only [collapseWsAux, List.mem_singleton] at h
      by_cases ha : isJsWs a
      · simp [ha] at h
        exact Or.inl h
      · simp [ha] at h
        exact Or.inr (by simp [h])
    | cons b rest2 =>
      simp only [collapseWsAux] at h
      by_cases ha : isJsWs a <;> by_cases hb : isJsWs b <;> simp [ha, hb] at h
      · rcases ih h with h1 | h1
        · exact Or.inl h1
        · exact Or.inr (List.mem_cons_of_mem a h1)
      · rcases h with h1 | h1
        · exact Or.inl h1
        · rcases ih h1 with h2 | h2
          · exact Or.inl h2
          · exact Or.inr (List.mem_cons_of_mem a h2)
      · rcases h with h1 | h1
        · exact Or.inr (by simp [h1])
        · rcases ih h1 with h2 | h2
          · exact Or.inl h2
          · exact Or.inr (List.mem_cons_of_mem a h2)
      · rcases h with h1 | h1
        · exact Or.inr (by simp [h1])
        · rcases ih h1 with h2 | h2
          · exact Or.inl h2
          · exact Or.inr (List.mem_cons_of_mem a h2)

theorem mem_normalizeWs (s : String) (c : Char) (h : c ∈ (normalizeWs s).data) :
    c = ' ' ∨ c ∈ s.data := by
  exact mem_collapseWsAux _ _ (mem_jsTrim _ _ h)

theorem mem_splitBeforeBanme (l : List Char) (c : Char) (h : c ∈ splitBeforeBanme l) :
    c ∈ l := by
  simp only [splitBeforeBanme] at h
  cases hm : banmeMatchStart l with
  | none => rw [hm] at h; exact h
  | some p => rw [hm] at h; exact List.take_subset p l h

theorem c6aux_no_paren (s : String) (w : CircledWord) (hw : w ∈ parseCircledWordList s) :
    w.text.data.all (fun c => !(parensChars.contains c)) = true := by
  simp only [parseCircledWordList] at hw
  split at hw
  · simp at hw
  · rw [(List.perm_insertionSort _ _).mem_iff, List.mem_filterMap] at hw
    obtain ⟨i, _, hf⟩ := hw
    cases hget : (circledHits s.data)[i]? with
    | none =>
      simp only [hget] at hf
      exact absurd hf (by simp)
    | some pr =>
      obtain ⟨start, marker⟩ := pr
      simp only [hget] at hf
      cases hcv : circledVal marker with
      | none =>
        simp only [hcv] at hf
        exact absurd hf (by simp)
      | some n =>
        simp only [hcv] at hf
        split at hf
        · exact absurd hf (by simp)
        · cases hf
          apply List.all_eq_true.mpr
          intro c hc
          rcases mem_normalizeWs _ _ hc with h1 | h1
          · subst h1; decide
          · have h2 := mem_jsTrim _ _ h1
            have h3 := mem_splitBeforeBanme _ _ h2
            have h4 := mem_jsTrim _ _ h3
            simp only [List.mem_map] at h4
            obtain ⟨x, _, hx⟩ := h4
            by_cases hpx : parensChars.contains x = true
            · rw [if_pos hpx] at hx
              subst hx; decide
            · rw [if_neg hpx] at hx
              subst hx
              simp only [Bool.not_eq_true] at hpx
              simpa using hpx

theorem c6aux_sorted (s : String) :
    List.Pairwise (fun a b => a.n ≤ b.n) (parseCircledWordList s) := by
  haveI hT : IsTotal CircledWord (fun a b => a.n ≤ b.n) := ⟨fun a b => Nat.le_total a.n b.n⟩
  haveI hR : IsTrans CircledWord (fun a b => a.n ≤ b.n) := ⟨fun _ _ _ h1 h2 => Nat.le_trans h1 h2⟩
  simp only [parseCircledWordList]
  split
  · exact List.Pairwise.nil
  · exact List.sorted_insertionSort _ _

/-- C6: `parseCircledWordList` slices the text between consecutive circled
markers, removes parenthesis characters and everything from a `<N>番目`
annotation onward, and returns the fragments sorted ascending by marker value
whatever the markers' textual order: the result is always sorted by `n`,
fragment texts never contain a parenthesis character, every reordering of the
three marker blocks of `"①to the ②store ③tomorrow"` yields the fragments in
order `[1, 2, 3]`, and a trailing `"2番目"` annotation is stripped. -/
theorem c6_circled_word_list :
    (∀ s : String, List.Pairwise (fun a b => a.n ≤ b.n) (parseCircledWordList s)) ∧
    (∀ s : String, ((parseCircledWordList s).all
        (fun w => w.text.data.all (fun c => !(parensChars.contains c)))) = true) ∧
    parseCircledWordList "①to the ②store ③tomorrow" =
      [⟨1, "to the"⟩, ⟨2, "store"⟩, ⟨3, "tomorrow"⟩] ∧
    parseCircledWordList "①to the ③tomorrow ②store" =
      [⟨1, "to the"⟩, ⟨2, "store"⟩, ⟨3, "tomorrow"⟩] ∧
    parseCircledWordList "②store ①to the ③tomorrow" =
      [⟨1, "to the"⟩, ⟨2, "store"⟩, ⟨3, "tomorrow"⟩] ∧
    parseCircledWordList "②store ③tomorrow ①to the" =
      [⟨1, "to the"⟩, ⟨2, "store"⟩, ⟨3, "tomorrow"⟩] ∧
    parseCircledWordList "③tomorrow ①to the ②store" =
      [⟨1, "to the"⟩, ⟨2, "store"⟩, ⟨3, "tomorrow"⟩] ∧
    parseCircledWordList "③tomorrow ②store ①to the" =
      [⟨1, "to the"⟩, ⟨2, "store"⟩, ⟨3, "tomorrow"⟩] ∧
    parseCircledWordList "①to the 2番目 ②store" = [⟨1, "to the"⟩, ⟨2, "store"⟩] := by
  refine ⟨c6aux_sorted, ?_, by decide, by decide, by decide, by decide, by decide, by decide,
    by decide⟩
  intro s
  exact List.all_eq_true.mpr (fun w hw => c6aux_no_paren s w hw)

/-- C8: document writing fails with the refusal error naming the output path
exactly when a file already exists there and the overwrite flag is unset, and
succeeds exactly when no file exists or the flag is set. -/
theorem c8_overwrite_refusal :
    ∀ (fileExists overwrite : Bool) (outPath : String),
      (writeDecision fileExists overwrite outPath =
          Except.error ("Refusing to overwrite: " ++ outPath ++ " (pass --overwrite)") ↔
        fileExists = true ∧ overwrite = false) ∧
      (writeDecision fileExists overwrite outPath = Except.ok () ↔
        fileExists = false ∨ overwrite = true) := by
  intro e o p
  cases e <;> cases o <;> simp [writeDecision]

/-- C9: a word-order question's `answerIndex` is computed over the raw choice
elements in document order while its `choices` keep only the pair-parsing
ones; on a question whose marked choice (position 1) follows a non-pair
choice, `answerIndex = 1` equals the length of `choices`. -/
theorem c9_word_order_answer_index_mismatch :
    (∀ (qs : List HNode) (hint : String),
        ((parseWordOrderSection qs hint).questions.map (fun pq => pq.answerIndex)) =
          qs.map (fun q => answerIndex (querySelector q "choices")) ∧
        ((parseWordOrderSection qs hint).questions.map (fun pq => pq.choices)) =
          qs.map (fun q =>
            (((((querySelector q "choices").map (fun cn => querySelectorAll cn "choice")).getD
                  []).filterMap (fun c => parsePairChoiceText (textOf c))).filter
                (fun pair => !pair.isEmpty)).map
              (fun pair => ({ choices := pair } : MultipleNumberChoice)))) ∧
    (parseWordOrderSection [c9Question] "").questions.map (fun pq => (pq.answerIndex, pq.choices)) =
      [(1, [{ choices := [3, 1] }])] ∧
    ((parseWordOrderSection [c9Question] "").questions.all
      (fun pq => pq.choices.length ≤ pq.answerIndex.toNat)) = true := by
  refine ⟨?_, by decide, by decide⟩
  intro qs hint
  constructor
  · simp [parseWordOrderSection, List.map_map]
  · simp [parseWordOrderSection, List.map_map]

theorem mapGet_cons {α : Type} (p : String × α) (m : List (String × α)) (k : String) :
    mapGet (p :: m) k = if (p.1 == k) = true then some p.2 else mapGet m k := by
  by_cases hp : (p.1 == k) = true
  · have hf : List.find? (fun q => q.1 == k) (p :: m) = some p :=
      List.find?_cons_of_pos m hp
    rw [mapGet, hf, if_pos hp]
    rfl
  · have hf : List.find? (fun q => q.1 == k) (p :: m) = List.find? (fun q => q.1 == k) m :=
      List.find?_cons_of_neg m (by simpa using hp)
    rw [mapGet, hf, if_neg hp, mapGet]

theorem mapHas_cons {α : Type} (p : String × α) (m : List (String × α)) (k : String) :
    mapHas (p :: m) k = (p.1 == k || mapHas m k) := by
  rw [mapHas, List.any_cons, mapHas]

theorem mapHas_map_replace {α : Type} (m : List (String × α)) (k k' : String) (v : α) :
    mapHas (m.map (fun p => if p.1 == k then (k, v) else p)) k' = mapHas m k' := by
  induction m with
  | nil => rfl
  | cons p rest ih =>
    rw [List.map_cons, mapHas_cons, mapHas_cons, ih]
    by_cases hp : (p.1 == k) = true
    · have hpk : p.1 = k := by simpa using hp
      rw [if_pos hp, hpk]
    · rw [if_neg hp]

theorem mapHas_mapSet {α : Type} (m : List (String × α)) (k k' : String) (v : α) :
    mapHas (mapSet m k v) k' = (k' == k || mapHas m k') := by
  rw [mapSet]
  by_cases h : mapHas m k = true
  · rw [if_pos h, mapHas_map_replace]
    by_cases hkk : k' = k
    · subst hkk
      simp [h]
    · simp [show (k' == k) = false from by simpa using hkk]
  · rw [if_neg h]
    by_cases hkk : k' = k
    · subst hkk
      simp [mapHas, List.any_append]
    · have h1 : (k' == k) = false := by simpa using hkk
      have h2 : (k == k') = false := by simpa using (Ne.symm hkk)
      simp [mapHas, List.any_append, h1, h2]

theorem mapHas_mapSet_of_has {α : Type} (m : List (String × α)) (ka k : String) (v : α)
    (h : mapHas m ka = true) : mapHas (mapSet m ka v) k = mapHas m k := by
  rw [mapHas_mapSet]
  by_cases hk : k = ka
  · subst hk
    simp [h]
  · simp [show (k == ka) = false from by simpa using hk]

theorem mapGet_map_replace_self {α : Type} (m : List (String × α)) (k : String) (v : α)
    (h : mapHas m k = true) :
    mapGet (m.map (fun p => if p.1 == k then (k, v) else p)) k = some v := by
  induction m with
  | nil => simp [mapHas] at h
  | cons p rest ih =>
    rw [mapHas_cons] at h
    by_cases hp : (p.1 == k) = true
    · rw [List.map_cons, if_pos hp, mapGet_cons]
      simp
    · have hpf : (p.1 == k) = false := by simpa using hp
      rw [hpf, Bool.false_or] at h
      rw [List.map_cons, if_neg hp, mapGet_cons, if_neg hp]
      exact ih h

theorem mapGet_mapSet_self {α : Type} (m : List (String × α)) (k : String) (v : α)
    (h : mapHas m k = true) : mapGet (mapSet m k v) k = some v := by
  rw [mapSet, if_pos h]
  exact mapGet_map_replace_self m k v h

theorem mapGet_map_replace_ne {α : Type} (m : List (String × α)) (k k' : String) (v : α)
    (hne : k' ≠ k) :
    mapGet (m.map (fun p => if p.1 == k then (k, v) else p)) k' = mapGet m k' := by
  induction m with
  | nil => rfl
  | cons p rest ih =>
    rw [List.map_cons, mapGet_cons, mapGet_cons]
    by_cases hp : (p.1 == k) = true
    · have hpk : p.1 = k := by simpa using hp
      have h1 : (k == k') = false := by simpa using fun h0 : k = k' => hne h0.symm
      have h2 : (p.1 == k') = false := by rw [hpk]; exact h1
      rw [if_pos hp]
      show (if (k == k') = true then some v else _) = _
      rw [if_neg (by simp [h1]), if_neg (by simp [h2])]
      exact ih
    · rw [if_neg hp]
      by_cases hq : (p.1 == k') = true
      · rw [if_pos hq, if_pos hq]
      · rw [if_neg hq, if_neg hq]
        exact ih

theorem mapGet_append_single_ne {α : Type} (m : List (String × α)) (k k' : String) (v : α)
    (hne : k' ≠ k) : mapGet (m ++ [(k, v)]) k' = mapGet m k' := by
  induction m with
  | nil =>
    rw [List.nil_append, mapGet_cons]
    rw [if_neg (by simpa using fun h0 : k = k' => hne h0.symm)]
  | cons p rest ih =>
    rw [List.cons_append, mapGet_cons, mapGet_cons, ih]

theorem mapGet_mapSet_ne {α : Type} (m : List (String × α)) (k k' : String) (v : α)
    (hne : k' ≠ k) : mapGet (mapSet m k v) k' = mapGet m k' := by
  rw [mapSet]
  by_cases h : mapHas m k = true
  · rw [if_pos h]
    exact mapGet_map_replace_ne m k k' v hne
  · rw [if_neg h]
    exact mapGet_append_single_ne m k k' v hne

theorem mapGet_append_single_self {α : Type} (m : List (String × α)) (k : String) (v : α)
    (h : mapHas m k = false) : mapGet (m ++ [(k, v)]) k = some v := by
  induction m with
  | nil => rw [List.nil_append, mapGet_cons, if_pos (by simp)]
  | cons p rest ih =>
    rw [mapHas_cons, Bool.or_eq_false_iff] at h
    rw [List.cons_append, mapGet_cons, if_neg (by simp [h.1])]
    exact ih h.2

theorem mapHas_initBuckets_aux (order : List String) (m : List (String × List (Nat × HNode)))
    (k : String) (h : mapHas m k = true ∨ k ∈ order) :
    mapHas (order.foldl (fun m k' => mapSet m k' []) m) k = true := by
  induction order generalizing m with
  | nil =>
    rcases h with h | h
    · exact h
    · simp at h
  | cons k1 rest ih =>
    simp only [List.foldl_cons]
    apply ih
    rcases h with h | h
    · exact Or.inl (by rw [mapHas_mapSet]; simp [h])
    · rcases List.mem_cons.mp h with h | h
      · subst h
        exact Or.inl (by rw [mapHas_mapSet]; simp)
      · exact Or.inr h

theorem mapHas_initBuckets (order : List String) (k : String) (hk : k ∈ order) :
    mapHas (initBuckets order) k = true :=
  mapHas_initBuckets_aux order [] k (Or.inr hk)

theorem bucketOf_mapSet_self (m : List (String × List (Nat × HNode))) (k : String)
    (v : List (Nat × HNode)) (h : mapHas m k = true) :
    bucketOf (mapSet m k v) k = v := by
  rw [bucketOf, mapGet_mapSet_self _ _ _ h]
  rfl

theorem bucketOf_mapSet_ne (m : List (String × List (Nat × HNode))) (k k' : String)
    (v : List (Nat × HNode)) (hne : k' ≠ k) :
    bucketOf (mapSet m k v) k' = bucketOf m k' := by
  rw [bucketOf, mapGet_mapSet_ne _ _ _ _ hne, bucketOf]

theorem bucketOf_initBuckets_aux (order : List String)
    (m : List (String × List (Nat × HNode))) (h : ∀ k', bucketOf m k' = [])
    (k : String) : bucketOf (order.foldl (fun m k' => mapSet m k' []) m) k = [] := by
  induction order generalizing m with
  | nil => exact h k
  | cons k1 rest ih =>
    simp only [List.foldl_cons]
    apply ih
    intro k'
    by_cases hk : k' = k1
    · subst hk
      by_cases hhas : mapHas m k' = true
      · rw [bucketOf, mapGet_mapSet_self _ _ _ hhas]
        rfl
      · rw [bucketOf, mapSet, if_neg hhas,
          mapGet_append_single_self _ _ _ (by simpa using hhas)]
        rfl
    · rw [bucketOf, mapGet_mapSet_ne _ _ _ _ hk]
      exact h k'

theorem bucketOf_initBuckets (order : List String) (k : String) :
    bucketOf (initBuckets order) k = [] :=
  bucketOf_initBuckets_aux order [] (fun _ => rfl) k

theorem fillBuckets_has (cbi : List (String × HNode)) (order : List String)
    (l : List (Nat × HNode)) (cur : Option String)
    (m : List (String × List (Nat × HNode))) (k : String) :
    mapHas (fillBuckets cbi order l cur m) k = mapHas m k := by
  induction l generalizing cur m with
  | nil => rfl
  | cons p rest ih =>
    obtain ⟨i, it⟩ := p
    simp only [fillBuckets]
    by_cases h1 : (tagLower it == "content") = true
    · rw [if_pos h1]
      exact ih _ _
    · rw [if_neg h1]
      by_cases h2 : (tagLower it == "question") = true
      · rw [if_pos h2]
        cases hr : resolveForKey cbi order it with
        | some ka =>
          simp only [hr]
          by_cases hpush : (ka != "" && mapHas m ka) = true
          · rw [if_pos hpush, ih _ _]
            exact mapHas_mapSet_of_has _ _ _ _
              ((Bool.and_eq_true _ _).mp hpush).2
          · rw [if_neg hpush]
            exact ih _ _
        | none =>
          simp only [hr]
          cases cur with
          | none => exact ih _ _
          | some kc =>
            simp only
            by_cases hpush : (kc != "" && mapHas m kc) = true
            · rw [if_pos hpush, ih _ _]
              exact mapHas_mapSet_of_has _ _ _ _
                ((Bool.and_eq_true _ _).mp hpush).2
            · rw [if_neg hpush]
              exact ih _ _
      · rw [if_neg h2]
        exact ih _ _

theorem curAfter_nil (cbi : List (String × HNode)) (cur : Option String) :
    curAfter cbi cur [] = cur := rfl

theorem curAfter_cons (cbi : List (String × HNode)) (cur : Option String)
    (p : Nat × HNode) (l : List (Nat × HNode)) :
    curAfter cbi cur (p :: l) = curAfter cbi (scanContentKey cbi cur p.2) l := rfl

theorem scanContentKey_not_content (cbi : List (String × HNode)) (cur : Option String)
    (it : HNode) (h : (tagLower it == "content") = false) :
    scanContentKey cbi cur it = cur := by
  rw [scanContentKey, if_neg (by simp [h])]

theorem fillBuckets_append (cbi : List (String × HNode)) (order : List String)
    (l1 l2 : List (Nat × HNode)) (cur : Option String)
    (m : List (String × List (Nat × HNode))) :
    fillBuckets cbi order (l1 ++ l2) cur m =
      fillBuckets cbi order l2 (curAfter cbi cur l1) (fillBuckets cbi order l1 cur m) := by
  induction l1 generalizing cur m with
  | nil => rfl
  | cons p rest ih =>
    obtain ⟨i, it⟩ := p
    rw [List.cons_append, curAfter_cons]
    simp only [fillBuckets]
    by_cases h1 : (tagLower it == "content") = true
    · rw [if_pos h1, if_pos h1]
      exact ih _ _
    · have hs : scanContentKey cbi cur it = cur := scanContentKey_not_content cbi cur it
        (by simpa using h1)
      rw [if_neg h1, if_neg h1, hs]
      by_cases h2 : (tagLower it == "question") = true
      · rw [if_pos h2, if_pos h2]
        exact ih _ _
      · rw [if_neg h2, if_neg h2]
        exact ih _ _

theorem mem_pushBucket_iff (m : List (String × List (Nat × HNode))) (ka : String)
    (j : Nat) (it : HNode) (i : Nat) (q : HNode) (k : String) (hj : j ≠ i) :
    ((i, q) ∈ bucketOf (if (ka != "" && mapHas m ka) = true
        then mapSet m ka (((mapGet m ka).getD []) ++ [(j, it)]) else m) k
      ↔ (i, q) ∈ bucketOf m k) := by
  by_cases hpush : (ka != "" && mapHas m ka) = true
  · rw [if_pos hpush]
    by_cases hk : k = ka
    · subst hk
      rw [bucketOf_mapSet_self _ _ _ ((Bool.and_eq_true _ _).mp hpush).2]
      constructor
      · intro hmem
        rcases List.mem_append.mp hmem with h | h
        · exact h
        · exfalso
          have heq := List.mem_singleton.mp h
          exact hj (congrArg Prod.fst heq).symm
      · intro hmem
        exact List.mem_append_left _ hmem
    · rw [bucketOf_mapSet_ne _ _ _ _ hk]
  · rw [if_neg hpush]

theorem fillBuckets_mem_fresh (cbi : List (String × HNode)) (order : List String)
    (l : List (Nat × HNode)) (cur : Option String)
    (m : List (String × List (Nat × HNode))) (i : Nat) (q : HNode) (k : String)
    (hl : ∀ p ∈ l, p.1 ≠ i) :
    ((i, q) ∈ bucketOf (fillBuckets cbi order l cur m) k ↔ (i, q) ∈ bucketOf m k) := by
  induction l generalizing cur m with
  | nil => exact Iff.rfl
  | cons p rest ih =>
    obtain ⟨j, it⟩ := p
    have hj : j ≠ i := hl (j, it) (List.mem_cons_self _ _)
    have hrest : ∀ p ∈ rest, p.1 ≠ i := fun p hp => hl p (List.mem_cons_of_mem _ hp)
    simp only [fillBuckets]
    by_cases h1 : (tagLower it == "content") = true
    · rw [if_pos h1]
      exact ih _ _ hrest
    · rw [if_neg h1]
      by_cases h2 : (tagLower it == "question") = true
      · rw [if_pos h2]
        cases hr : resolveForKey cbi order it with
        | some ka =>
          simp only [hr]
          exact (ih _ _ hrest).trans (mem_pushBucket_iff m ka j it i q k hj)
        | none =>
          simp only [hr]
          cases cur with
          | none => exact ih _ _ hrest
          | some kc =>
            simp only
            exact (ih _ _ hrest).trans (mem_pushBucket_iff m kc j it i q k hj)
      · rw [if_neg h2]
        exact ih _ _ hrest

theorem resolveForKey_ne_empty (cbi : List (String × HNode)) (order : List String)
    (q : HNode) (k : String) (h : resolveForKey cbi order q = some k) : k ≠ "" := by
  simp only [resolveForKey] at h
  set key := jsTrim ((getAttr q "for").getD "") with hkey
  by_cases h0 : (key == "") = true
  · rw [if_pos h0] at h
    exact absurd h (by simp)
  · rw [if_neg h0] at h
    by_cases h1 : mapHas cbi key = true
    · rw [if_pos h1] at h
      have hk : key = k := by
        have := h
        injection this
      intro hke
      rw [hke] at hk
      rw [hk] at h0
      simp at h0
    · rw [if_neg h1] at h
      by_cases h2 : (key.data.all Char.isDigit) = true
      · rw [if_pos h2] at h
        cases hm : order[digitsToNat key.data - 1]? with
        | none =>
          simp only [hm] at h
          exact absurd h (by simp)
        | some mapped =>
          simp only [hm] at h
          by_cases h3 : (1 ≤ digitsToNat key.data && digitsToNat key.data ≤ order.length &&
              mapped != "") = true
          · rw [if_pos h3] at h
            have hk : mapped = k := by injection h
            have hmne : (mapped != "") = true := ((Bool.and_eq_true _ _).mp h3).2
            rw [hk] at hmne
            intro hke
            rw [hke] at hmne
            simp at hmne
          · rw [if_neg h3] at h
            exact absurd h (by simp)
      · rw [if_neg h2] at h
        exact absurd h (by simp)

theorem scanContentKey_ne_some_empty (cbi : List (String × HNode)) (cur : Option String)
    (it : HNode) (h : cur ≠ some "") : scanContentKey cbi cur it ≠ some "" := by
  simp only [scanContentKey]
  by_cases h1 : (tagLower it == "content") = true
  · rw [if_pos h1]
    by_cases h2 : ((jsTrim ((getAttr it "index").getD "") != "") &&
        mapHas cbi (jsTrim ((getAttr it "index").getD ""))) = true
    · rw [if_pos h2]
      intro hc
      have hc2 : jsTrim ((getAttr it "index").getD "") = "" := by injection hc
      have := ((Bool.and_eq_true _ _).mp h2).1
      rw [hc2] at this
      simp at this
    · rw [if_neg h2]
      exact h
  · rw [if_neg h1]
    exact h

theorem curAfter_ne_some_empty (cbi : List (String × HNode)) (cur : Option String)
    (l : List (Nat × HNode)) (h : cur ≠ some "") : curAfter cbi cur l ≠ some "" := by
  induction l generalizing cur with
  | nil => exact h
  | cons p rest ih =>
    rw [curAfter_cons]
    exact ih _ (scanContentKey_ne_some_empty _ _ _ h)

theorem curAfter_no_content (cbi : List (String × HNode)) (cur : Option String)
    (l : List (Nat × HNode)) (h : ∀ p ∈ l, (tagLower p.2 == "content") = false) :
    curAfter cbi cur l = cur := by
  induction l generalizing cur with
  | nil => rfl
  | cons p rest ih =>
    rw [curAfter_cons, scanContentKey_not_content _ _ _ (h p (List.mem_cons_self _ _))]
    exact ih _ (fun p hp => h p (List.mem_cons_of_mem _ hp))

theorem claimKey_eq_resolve (cbi : List (String × HNode)) (order : List String)
    (q : HNode) (cur1 : Option String) (horder : ∀ s ∈ order, s ≠ "") :
    claimKey cbi order cur1 q =
    (match resolveForKey cbi order q with
     | some ka => some ka
     | none => cur1) := by
  simp only [claimKey, resolveForKey]
  set fo := jsTrim ((getAttr q "for").getD "") with hfo
  by_cases h0 : fo = ""
  · rw [if_neg (fun hc => hc.1 h0), if_neg (fun hc => hc.1 h0),
      if_pos (show (fo == "") = true by simp [h0])]
  · have hbeq : ((fo == "") = true) → False := by simp [h0]
    by_cases h1 : mapHas cbi fo = true
    · rw [if_pos ⟨h0, h1⟩, if_neg hbeq, if_pos h1]
    · rw [if_neg hbeq, if_neg h1]
      by_cases h2 : (fo.data.all Char.isDigit) = true
      · rw [if_pos h2]
        by_cases h3 : 1 ≤ digitsToNat fo.data ∧ digitsToNat fo.data ≤ order.length
        · have hlt : digitsToNat fo.data - 1 < order.length := by omega
          have hm : order[digitsToNat fo.data - 1]? = some (order[digitsToNat fo.data - 1]) :=
            List.getElem?_eq_getElem hlt
          have hne : order[digitsToNat fo.data - 1] ≠ "" :=
            horder _ (List.getElem_mem hlt)
          rw [if_neg (fun hc => h1 hc.2), if_pos ⟨h0, h2, h3.1, h3.2⟩]
          simp only [hm]
          rw [if_pos (by
            have hb : (order[digitsToNat fo.data - 1] != "") = true := by simp [hne]
            simp [h3.1, h3.2, hb])]
        · rw [if_neg (fun hc => h1 hc.2), if_neg (fun hc => h3 ⟨hc.2.2.1, hc.2.2.2⟩)]
          cases hm : order[digitsToNat fo.data - 1]? with
          | none => simp only [hm]
          | some mapped =>
            simp only [hm]
            rw [if_neg (by
              intro hcond
              have hc := (Bool.and_eq_true _ _).mp ((Bool.and_eq_true _ _).mp hcond).1
              exact h3 ⟨by simpa using hc.1, by simpa using hc.2⟩)]
      · rw [if_neg (fun hc => h1 hc.2), if_neg (fun hc => h2 hc.2.1), if_neg h2]

theorem mem_selfPush_iff (m1 : List (String × List (Nat × HNode))) (ka : String) (i : Nat)
    (q : HNode) (k : String) (hka : ka ≠ "")
    (hfresh : ∀ k', (i, q) ∉ bucketOf m1 k') :
    ((i, q) ∈ bucketOf (if (ka != "" && mapHas m1 ka) = true
        then mapSet m1 ka (((mapGet m1 ka).getD []) ++ [(i, q)]) else m1) k
      ↔ (mapHas m1 ka = true ∧ ka = k)) := by
  by_cases hhaska : mapHas m1 ka = true
  · have hpush : (ka != "" && mapHas m1 ka) = true := by
      simp [hhaska]
      simpa using hka
    rw [if_pos hpush]
    by_cases hk : k = ka
    · subst hk
      rw [bucketOf, mapGet_mapSet_self _ _ _ hhaska, Option.getD_some]
      constructor
      · intro _
        exact ⟨hhaska, rfl⟩
      · intro _
        exact List.mem_append_right _ (List.mem_singleton_self _)
    · rw [show bucketOf (mapSet m1 ka (((mapGet m1 ka).getD []) ++ [(i, q)])) k =
          bucketOf m1 k from bucketOf_mapSet_ne _ _ _ _ hk]
      constructor
      · intro hmem
        exact absurd hmem (hfresh k)
      · rintro ⟨_, hEq⟩
        exact absurd hEq.symm hk
  · rw [if_neg (by simp [hhaska])]
    constructor
    · intro hmem
      exact absurd hmem (hfresh k)
    · rintro ⟨hh, _⟩
      exact absurd hh hhaska

/-- C1: during the document-order scan over a reading section's items, the
question at a fresh position lands in exactly the bucket named by the claim's
priority (`claimKey`): a verbatim known index from the trimmed `for`
attribute, else a 1-based ordinal into the content order, else the
current-content pointer obtained by scanning the preceding items — and only
when that key has a bucket. -/
theorem c1_content_key_priority (cbi : List (String × HNode)) (order : List String)
    (pre suf : List (Nat × HNode)) (i : Nat) (q : HNode) (cur0 : Option String)
    (m0 : List (String × List (Nat × HNode)))
    (hq : tagLower q = "question")
    (hpre : ∀ p ∈ pre, p.1 ≠ i) (hsuf : ∀ p ∈ suf, p.1 ≠ i)
    (hm0 : ∀ (k' : String) (p : Nat × HNode), p ∈ bucketOf m0 k' → p.1 ≠ i)
    (horder : ∀ s ∈ order, s ≠ "")
    (hcur : cur0 ≠ some "")
    (k : String) :
    ((i, q) ∈ bucketOf (fillBuckets cbi order (pre ++ (i, q) :: suf) cur0 m0) k ↔
      (mapHas m0 k = true ∧ claimKey cbi order (curAfter cbi cur0 pre) q = some k)) := by
  have hnc : ((tagLower q == "content") = true) → False := by simp [hq]
  have hqb : (tagLower q == "question") = true := by simp [hq]
  rw [fillBuckets_append]
  simp only [fillBuckets]
  rw [if_neg hnc, if_pos hqb]
  rw [claimKey_eq_resolve cbi order q (curAfter cbi cur0 pre) horder]
  have hhas : ∀ k', mapHas (fillBuckets cbi order pre cur0 m0) k' = mapHas m0 k' :=
    fun k' => fillBuckets_has cbi order pre cur0 m0 k'
  have hfresh1 : ∀ k', (i, q) ∉ bucketOf (fillBuckets cbi order pre cur0 m0) k' := by
    intro k' hmem
    exact hm0 k' (i, q) ((fillBuckets_mem_fresh cbi order pre cur0 m0 i q k' hpre).mp hmem) rfl
  cases hr : resolveForKey cbi order q with
  | some ka =>
    simp only [hr]
    have hka : ka ≠ "" := resolveForKey_ne_empty cbi order q ka hr
    rw [fillBuckets_mem_fresh cbi order suf _ _ i q k hsuf]
    rw [mem_selfPush_iff _ ka i q k hka hfresh1]
    constructor
    · rintro ⟨hh, rfl⟩
      exact ⟨(hhas ka) ▸ hh, rfl⟩
    · rintro ⟨hh, hEq⟩
      have hk : ka = k := by injection hEq
      subst hk
      exact ⟨(hhas ka).symm ▸ hh, rfl⟩
  | none =>
    simp only [hr]
    cases hc1 : curAfter cbi cur0 pre with
    | none =>
      simp only [hc1]
      rw [fillBuckets_mem_fresh cbi order suf _ _ i q k hsuf]
      constructor
      · intro hmem
        exact absurd hmem (hfresh1 k)
      · rintro ⟨_, hEq⟩
        exact absurd hEq (by simp)
    | some kc =>
      simp only [hc1]
      have hkc : kc ≠ "" := by
        intro hkcE
        apply curAfter_ne_some_empty cbi cur0 pre hcur
        rw [hc1, hkcE]
      rw [fillBuckets_mem_fresh cbi order suf _ _ i q k hsuf]
      rw [mem_selfPush_iff _ kc i q k hkc hfresh1]
      constructor
      · rintro ⟨hh, rfl⟩
        exact ⟨(hhas kc) ▸ hh, rfl⟩
      · rintro ⟨hh, hEq⟩
        have hk : kc = k := by injection hEq
        subst hk
        exact ⟨(hhas kc).symm ▸ hh, rfl⟩

/-- Witness for C1: a question with `for="2"` between two indexed contents is
assigned to bucket `"2"`, the hypotheses holding at these concrete inputs. -/
theorem c1_content_key_priority_witness :
    (tagLower c1Question = "question") ∧
    (∀ p ∈ c1Pre, p.1 ≠ 2) ∧
    (∀ p ∈ c1Suf, p.1 ≠ 2) ∧
    (∀ (k' : String) (p : Nat × HNode), p ∈ bucketOf (initBuckets ["1", "2"]) k' → p.1 ≠ 2) ∧
    (∀ s ∈ ["1", "2"], s ≠ "") ∧
    ((some "1" : Option String) ≠ some "") ∧
    ((2, c1Question) ∈ bucketOf (fillBuckets c1Cbi ["1", "2"]
        (c1Pre ++ (2, c1Question) :: c1Suf) (some "1") (initBuckets ["1", "2"])) "2") :=
  ⟨rfl, by decide, by decide,
   fun k' p hp => by rw [bucketOf_initBuckets] at hp; simp at hp,
   by decide, by decide,
   (c1_content_key_priority c1Cbi ["1", "2"] c1Pre c1Suf 2 c1Question (some "1")
       (initBuckets ["1", "2"]) rfl (by decide) (by decide)
       (fun k' p hp => by rw [bucketOf_initBuckets] at hp; simp at hp)
       (by decide) (by decide) "2").mpr ⟨by decide, by decide⟩⟩

/-- C10: the current-content pointer starts at the first indexed content's
key, so a question preceding every content element, with an unresolvable
`for` attribute, is attached to the first content's bucket. -/
theorem c10_initial_content_pointer (cbi : List (String × HNode)) (order : List String)
    (pre suf : List (Nat × HNode)) (i : Nat) (q : HNode) (k0 : String)
    (hq : tagLower q = "question")
    (hpre_nc : ∀ p ∈ pre, (tagLower p.2 == "content") = false)
    (hpre : ∀ p ∈ pre, p.1 ≠ i) (hsuf : ∀ p ∈ suf, p.1 ≠ i)
    (hres : resolveForKey cbi order q = none)
    (hhead : order.head? = some k0) (hk0 : k0 ≠ "") :
    (i, q) ∈ bucketOf
      (fillBuckets cbi order (pre ++ (i, q) :: suf) order.head? (initBuckets order)) k0 := by
  have hnc : ((tagLower q == "content") = true) → False := by simp [hq]
  have hqb : (tagLower q == "question") = true := by simp [hq]
  have hk0mem : k0 ∈ order := by
    cases order with
    | nil => simp at hhead
    | cons a rest =>
      have ha : a = k0 := by simpa using hhead
      rw [← ha]
      exact List.mem_cons_self _ _
  rw [fillBuckets_append]
  simp only [fillBuckets]
  rw [if_neg hnc, if_pos hqb]
  have hca : curAfter cbi order.head? pre = some k0 := by
    rw [curAfter_no_content cbi _ pre hpre_nc, hhead]
  simp only [hres, hca]
  have hfresh1 : ∀ k',
      (i, q) ∉ bucketOf (fillBuckets cbi order pre order.head? (initBuckets order)) k' := by
    intro k' hmem
    have := (fillBuckets_mem_fresh cbi order pre order.head? (initBuckets order) i q k' hpre).mp
      hmem
    rw [bucketOf_initBuckets] at this
    simp at this
  have hhask0 : mapHas (fillBuckets cbi order pre order.head? (initBuckets order)) k0 = true := by
    rw [fillBuckets_has]
    exact mapHas_initBuckets order k0 hk0mem
  rw [fillBuckets_mem_fresh cbi order suf _ _ i q k0 hsuf]
  rw [mem_selfPush_iff _ k0 i q k0 hk0 hfresh1]
  exact ⟨hhask0, rfl⟩

/-- Witness for C10: a question at position 1, preceded only by another
question and carrying no `for` attribute, lands in the first content's
bucket `"1"`. -/
theorem c10_initial_content_pointer_witness :
    (tagLower c10Question = "question") ∧
    (∀ p ∈ c10Pre, (tagLower p.2 == "content") = false) ∧
    (∀ p ∈ c10Pre, p.1 ≠ 1) ∧
    (∀ p ∈ ([] : List (Nat × HNode)), p.1 ≠ 1) ∧
    (resolveForKey c1Cbi ["1", "2"] c10Question = none) ∧
    ((["1", "2"] : List String).head? = some "1") ∧ ("1" : String) ≠ "" ∧
    ((1, c10Question) ∈ bucketOf (fillBuckets c1Cbi ["1", "2"]
        (c10Pre ++ (1, c10Question) :: []) ((["1", "2"] : List String).head?)
        (initBuckets ["1", "2"])) "1") :=
  ⟨rfl, by decide, by decide, by decide, by decide, rfl, by decide,
   c10_initial_content_pointer c1Cbi ["1", "2"] c10Pre [] 1 c10Question "1" rfl
     (by decide) (by decide) (by decide) (by decide) rfl (by decide)⟩

end EV
